import Mathlib

set_option linter.unusedSectionVars false

/-!
Shallow embedding of `smooth/framework/functions/update_financials.py`.

The Python module computes a CAPEX or OPEX cost value for one component from
a "financials" dictionary holding a fitting `key` (or list of keys), parallel
`fitting_value` and `dependant_value` entries, and a running `cost` field that
the engine writes in place.

Modelling choices:
* scalars live in an arbitrary commutative ring `V`; `math.exp` and the
  float power operator `**` (with a float exponent) are passed in as abstract
  functions `mexp : V → V` and `hpow : V → V → V`;
* Python's dynamic values (a number, a string, or a list) are the inductive
  `PyVal V`; component attributes are `AttrVal V` (a number, or a dict that
  may hold a `cost` entry, as the `capex` record does);
* in-place mutation of the financials dict becomes explicit state passing:
  each operation returns the updated record in `Except Err`;
* Python exceptions become the `Err` type: `ValueError` for an unrecognized
  key is `invalidConfiguration`, `AttributeError` from `getattr` is
  `attributeNotFound`, the odd-fitting-value `ValueError` is
  `validationError`, and dynamic-typing failures (`TypeError`, `KeyError`,
  `IndexError`) keep their names.
-/

namespace Smooth

/-- A dynamic Python value as used in the financials dictionary: a number,
a string, or a list of values. -/
inductive PyVal (V : Type) where
  | num (v : V)
  | str (s : String)
  | list (l : List (PyVal V))

/-- A component attribute: either a scalar, or a dict-like record that may
hold a `cost` entry (the shape of the component's `capex` record). -/
inductive AttrVal (V : Type) where
  | num (v : V)
  | dict (cost : Option V)

/-- The component object: a name plus named-attribute lookup
(`getattr`); `none` models a missing attribute. -/
structure Component (V : Type) where
  name : String
  attrs : String → Option (AttrVal V)

/-- The financials dictionary (`capex` or `opex`): `key`, `fitting_value`
and `dependant_value` may each be a bare value or a list; `cost` is the
running result, `none` while still absent. -/
structure Financials (V : Type) where
  key : PyVal V
  fitting_value : PyVal V
  dependant_value : PyVal V
  cost : Option V

/-- Errors raised by the engine. -/
inductive Err where
  | invalidConfiguration (key : String)
  | attributeNotFound (attr : String)
  | validationError (componentName : String) (count : Nat)
  | keyError
  | typeError
  | indexError

variable {V : Type} [CommRing V]

/-- `True` exactly for Python list values (`type(x) is list`). -/
def PyVal.isList : PyVal V → Bool
  | .list _ => true
  | _ => false

/-- Python subscripting `x[i]`: only lists are indexable here; an
out-of-range index is an `IndexError`. -/
def pyIndex : PyVal V → Nat → Except Err (PyVal V)
  | .list l, i =>
    match l.get? i with
    | some e => .ok e
    | none => .error .indexError
  | _, _ => .error .typeError

/-- Using a dynamic value as a number; anything else fails the arithmetic
with a `TypeError`. -/
def asNum : PyVal V → Except Err V
  | .num v => .ok v
  | _ => .error .typeError

/-- Read every element of a list of dynamic values as a number. -/
def mapAsNum : List (PyVal V) → Except Err (List V)
  | [] => .ok []
  | e :: es =>
    match asNum e with
    | .error err => .error err
    | .ok v =>
      match mapAsNum es with
      | .error err => .error err
      | .ok vs => .ok (v :: vs)

/-- Using a dynamic value as a list of numbers. -/
def asNumList : PyVal V → Except Err (List V)
  | .list l => mapAsNum l
  | _ => .error .typeError

/-- Reading `financials['cost']`; `KeyError` when the key is absent. -/
def getCost (f : Financials V) : Except Err V :=
  match f.cost with
  | some c => .ok c
  | none => .error .keyError

/-- Writing `financials['cost'] = c` (the only field the evaluators write). -/
def setCost (f : Financials V) (c : Option V) : Financials V :=
  { f with cost := c }

/-- `get_dependant_value`: fetch the component attribute named by
`financials['dependant_value'][index]`; when that name is `"capex"` the
nested `cost` entry of the attribute is returned instead. -/
def get_dependant_value (component : Component V) (financials : Financials V)
    (index : Nat) : Except Err V :=
  match pyIndex financials.dependant_value index with
  | .error e => .error e
  | .ok nameVal =>
    match nameVal with
    | .str name =>
      match component.attrs name with
      | none => .error (.attributeNotFound name)
      | some av =>
        if name = "capex" then
          match av with
          | .dict (some c) => .ok c
          | .dict none => .error .keyError
          | .num _ => .error .typeError
        else
          match av with
          | .num v => .ok v
          | .dict _ => .error .typeError
    | _ => .error .typeError

/-- `update_spec`: multiply the dependant value with the fitting value; the
string `'cost'` as fitting value selects the current running cost instead. -/
def update_spec (component : Component V) (financials : Financials V)
    (index : Nat) : Except Err (Financials V) :=
  match get_dependant_value component financials index with
  | .error e => .error e
  | .ok dependant_value =>
    match pyIndex financials.fitting_value index with
    | .error e => .error e
    | .ok entry =>
      match
        (match entry with
         | .str s => if s = "cost" then getCost financials else .error Err.typeError
         | e => asNum e) with
      | .error e => .error e
      | .ok fitting_value =>
        .ok (setCost financials (some (dependant_value * fitting_value)))

/-- `update_exp`: cost `fv[0] + fv[1] * exp(fv[2] * x)`; with only two
fitting values a constant `0` is prepended. -/
def update_exp (mexp : V → V) (component : Component V)
    (financials : Financials V) (index : Nat) : Except Err (Financials V) :=
  match get_dependant_value component financials index with
  | .error e => .error e
  | .ok dependant_value =>
    match pyIndex financials.fitting_value index with
    | .error e => .error e
    | .ok entry =>
      match asNumList entry with
      | .error e => .error e
      | .ok fv0 =>
        match (if fv0.length = 2 then 0 :: fv0 else fv0) with
        | a :: b :: c :: _ =>
          .ok (setCost financials (some (a + b * mexp (c * dependant_value))))
        | _ => .error .indexError

/-- The loop of `update_poly`: `cost = Σ fv[i] * x ** i`. -/
def polyCost (fv : List V) (x : V) : V :=
  (List.range fv.length).foldl (fun acc i => acc + fv.getD i 0 * x ^ i) 0

/-- `update_poly`: polynomial fitting in ascending powers. -/
def update_poly (component : Component V) (financials : Financials V)
    (index : Nat) : Except Err (Financials V) :=
  match get_dependant_value component financials index with
  | .error e => .error e
  | .ok dependant_value =>
    match pyIndex financials.fitting_value index with
    | .error e => .error e
    | .ok entry =>
      match asNumList entry with
      | .error e => .error e
      | .ok fv => .ok (setCost financials (some (polyCost fv dependant_value)))

/-- The loop of `update_free`: `cost = Σ fv[j*2] * x ** fv[j*2+1]`. -/
def freeCost (hpow : V → V → V) (fv : List V) (x : V) : V :=
  (List.range (fv.length / 2)).foldl
    (fun acc j => acc + fv.getD (j * 2) 0 * hpow x (fv.getD (j * 2 + 1) 0)) 0

/-- `update_free`: pairs of coefficient and freely chosen exponent; an
odd number of fitting values raises the validation `ValueError` naming the
component and the count. -/
def update_free (hpow : V → V → V) (component : Component V)
    (financials : Financials V) (index : Nat) : Except Err (Financials V) :=
  match get_dependant_value component financials index with
  | .error e => .error e
  | .ok dependant_value =>
    match pyIndex financials.fitting_value index with
    | .error e => .error e
    | .ok entry =>
      match entry with
      | .list l =>
        if l.length % 2 ≠ 0 then
          .error (.validationError component.name l.length)
        else
          match mapAsNum l with
          | .error e => .error e
          | .ok fv => .ok (setCost financials (some (freeCost hpow fv dependant_value)))
      | _ => .error .typeError

/-- `update_cost`: dispatch one step on `financials['key'][index]`; an
unrecognized key raises the `ValueError` naming it.  A non-string key falls
through the same chain of comparisons into the same `ValueError` (the Python
message formats the offending object; `"<non-string key>"` stands for that
rendering). -/
def update_cost (hpow : V → V → V) (mexp : V → V) (component : Component V)
    (financials : Financials V) (index : Nat) : Except Err (Financials V) :=
  match pyIndex financials.key index with
  | .error e => .error e
  | .ok keyVal =>
    match keyVal with
    | .str this_key =>
      if this_key = "fix" then .ok financials
      else if this_key = "spec" then update_spec component financials index
      else if this_key = "exp" then update_exp mexp component financials index
      else if this_key = "poly" then update_poly component financials index
      else if this_key = "free" then update_free hpow component financials index
      else .error (.invalidConfiguration this_key)
    | _ => .error (.invalidConfiguration "<non-string key>")

/-- Normalization step of `update_financials`: when `key` is not a list,
wrap `key`, `fitting_value` and `dependant_value` each into a one-element
list. -/
def normalize (financials : Financials V) : Financials V :=
  if financials.key.isList then financials
  else
    { key := .list [financials.key]
      fitting_value := .list [financials.fitting_value]
      dependant_value := .list [financials.dependant_value]
      cost := financials.cost }

/-- `len(financials['key'])` for the (normalized) key list. -/
def keyLen (f : Financials V) : Nat :=
  match f.key with
  | .list l => l.length
  | _ => 0

/-- The dispatch loop of `update_financials`, threading the mutated
financials through the listed step indices. -/
def update_steps (hpow : V → V → V) (mexp : V → V) (component : Component V) :
    List Nat → Financials V → Except Err (Financials V)
  | [], f => .ok f
  | i :: rest, f =>
    match update_cost hpow mexp component f i with
    | .error e => .error e
    | .ok f' => update_steps hpow mexp component rest f'

/-- `update_financials`: no-op on an empty/falsy financials dict, otherwise
normalize and run every step in order. -/
def update_financials (hpow : V → V → V) (mexp : V → V)
    (component : Component V) :
    Option (Financials V) → Except Err (Option (Financials V))
  | none => .ok none
  | some f0 =>
    match update_steps hpow mexp component
        (List.range (keyLen (normalize f0))) (normalize f0) with
    | .ok f' => .ok (some f')
    | .error e => .error e

/-- The fitting value `'cost'` sentinel test. -/
def isCostToken : PyVal V → Bool
  | .str s => s == "cost"
  | _ => false

/-- No step's fitting value is the `'cost'` sentinel. -/
def noCostTokenB (f : Financials V) : Bool :=
  match f.fitting_value with
  | .list l => l.all (fun e => !(isCostToken e))
  | e => !(isCostToken e)

/-! Concrete data for the witnesses, over `V = ℤ`.  `intPow` instantiates
the abstract power operator (all witness exponents are naturals) and
`intExp` the abstract exponential (only ever applied at `0` in witnesses). -/

/-- Integer instantiation of the float `**` operator used by witnesses. -/
def intPow (a b : ℤ) : ℤ := a ^ b.toNat

/-- Integer instantiation of `math.exp` used by witnesses (only its value
at `0`, which is `1`, is ever used). -/
def intExp (z : ℤ) : ℤ := if z = 0 then 1 else 0

/-- Witness component: attributes `power = 5`, `output = 2`, `zero = 0`
and a `capex` record with `cost = 7`. -/
def comp0 : Component ℤ :=
  { name := "electrolyzer"
    attrs := fun s =>
      if s = "power" then some (.num 5)
      else if s = "output" then some (.num 2)
      else if s = "zero" then some (.num 0)
      else if s = "capex" then some (.dict (some 7))
      else none }

/-- Normalized `spec` financials: fitting value `3`, dependant value
`power`. -/
def specF : Financials ℤ :=
  ⟨.list [.str "spec"], .list [.num 3], .list [.str "power"], none⟩

/-- Normalized `spec` financials using the `'cost'` sentinel with prior
cost `2`. -/
def specFc : Financials ℤ :=
  ⟨.list [.str "spec"], .list [.str "cost"], .list [.str "power"], some 2⟩

/-- Normalized `exp` financials with three fitting values `[1, 2, 3]`. -/
def expF3 : Financials ℤ :=
  ⟨.list [.str "exp"], .list [.list [.num 1, .num 2, .num 3]],
    .list [.str "zero"], none⟩

/-- Normalized `exp` financials with two fitting values `[2, 3]`. -/
def expF2 : Financials ℤ :=
  ⟨.list [.str "exp"], .list [.list [.num 2, .num 3]], .list [.str "zero"],
    none⟩

/-- Polynomial coefficients `[1, 2, 3]`. -/
def polyL : List ℤ := [1, 2, 3]

/-- Normalized `poly` financials with coefficients `polyL`. -/
def polyStepF : Financials ℤ :=
  ⟨.list [.str "poly"], .list [.list (polyL.map PyVal.num)],
    .list [.str "output"], none⟩

/-- Free-fitting coefficient/exponent pairs `[2, 3, 4, 1]`. -/
def freeL : List ℤ := [2, 3, 4, 1]

/-- Odd-length free-fitting values `[2, 3, 4]`. -/
def freeLodd : List ℤ := [2, 3, 4]

/-- Normalized `free` financials with values `freeL`. -/
def freeF : Financials ℤ :=
  ⟨.list [.str "free"], .list [.list (freeL.map PyVal.num)],
    .list [.str "output"], none⟩

/-- Normalized `free` financials with the odd-length values `freeLodd`. -/
def freeFodd : Financials ℤ :=
  ⟨.list [.str "free"], .list [.list (freeLodd.map PyVal.num)],
    .list [.str "output"], none⟩

/-- Financials whose dependant value is the `capex` record. -/
def dvCapexF : Financials ℤ :=
  ⟨.list [.str "fix"], .list [.num 0], .list [.str "capex"], none⟩

/-- Financials naming a missing component attribute. -/
def dvMissingF : Financials ℤ :=
  ⟨.list [.str "fix"], .list [.num 0], .list [.str "nope"], none⟩

/-- Single-step `spec` financials in bare (unwrapped) form. -/
def bareF : Financials ℤ := ⟨.str "spec", .num 3, .str "power", none⟩

/-- Financials with the unrecognized key `bogus` and a prior cost. -/
def bogusF : Financials ℤ := ⟨.str "bogus", .num 3, .str "power", some 9⟩

/-- Bare single-step `poly` financials with coefficients `polyL`. -/
def polyF : Financials ℤ :=
  ⟨.str "poly", .list (polyL.map PyVal.num), .str "output", none⟩

/-- The result of evaluating `polyF`: fields wrapped, cost
`1 + 2*2 + 3*4 = 17`. -/
def polyF1 : Financials ℤ :=
  ⟨.list [.str "poly"], .list [.list (polyL.map PyVal.num)],
    .list [.str "output"], some 17⟩

/-- Bare `spec` financials using the `'cost'` sentinel, prior cost `1`. -/
def idemF : Financials ℤ := ⟨.str "spec", .str "cost", .str "power", some 1⟩

/-- First evaluation of `idemF`: cost `5 * 1 = 5`, fields wrapped. -/
def idemF1 : Financials ℤ :=
  ⟨.list [.str "spec"], .list [.str "cost"], .list [.str "power"], some 5⟩

/-- Second evaluation: cost `5 * 5 = 25`. -/
def idemF2 : Financials ℤ :=
  ⟨.list [.str "spec"], .list [.str "cost"], .list [.str "power"], some 25⟩

/-! ### Helper lemmas -/

theorem key_setCost (f : Financials V) (c : Option V) :
    (setCost f c).key = f.key := rfl

theorem fitting_value_setCost (f : Financials V) (c : Option V) :
    (setCost f c).fitting_value = f.fitting_value := rfl

theorem dependant_value_setCost (f : Financials V) (c : Option V) :
    (setCost f c).dependant_value = f.dependant_value := rfl

theorem cost_setCost (f : Financials V) (c : Option V) :
    (setCost f c).cost = c := rfl

theorem setCost_setCost (f : Financials V) (c d : Option V) :
    setCost (setCost f c) d = setCost f d := rfl

theorem setCost_cost_self (f : Financials V) : setCost f f.cost = f := rfl

theorem get_dependant_value_setCost (component : Component V)
    (f : Financials V) (c : Option V) (i : Nat) :
    get_dependant_value component (setCost f c) i
      = get_dependant_value component f i := rfl

theorem update_exp_setCost (mexp : V → V) (component : Component V)
    (f : Financials V) (c : Option V) (i : Nat) :
    update_exp mexp component (setCost f c) i
      = update_exp mexp component f i := rfl

theorem update_poly_setCost (component : Component V) (f : Financials V)
    (c : Option V) (i : Nat) :
    update_poly component (setCost f c) i = update_poly component f i := rfl

theorem update_free_setCost (hpow : V → V → V) (component : Component V)
    (f : Financials V) (c : Option V) (i : Nat) :
    update_free hpow component (setCost f c) i
      = update_free hpow component f i := rfl

theorem mapAsNum_map (l : List V) :
    mapAsNum (l.map PyVal.num) = .ok l := by
  induction l with
  | nil => rfl
  | cons a l ih => simp [mapAsNum, asNum, ih]

theorem foldl_range_add (g : Nat → V) (n : Nat) (init : V) :
    (List.range n).foldl (fun acc i => acc + g i) init
      = init + ∑ i ∈ Finset.range n, g i := by
  induction n generalizing init with
  | zero => simp
  | succ m ih =>
    rw [List.range_succ, List.foldl_append, ih, Finset.sum_range_succ,
      List.foldl_cons, List.foldl_nil, add_assoc]

theorem polyCost_eq_sum (fv : List V) (x : V) :
    polyCost fv x = ∑ i ∈ Finset.range fv.length, fv.getD i 0 * x ^ i := by
  unfold polyCost
  rw [foldl_range_add, zero_add]

theorem freeCost_eq_sum (hpow : V → V → V) (fv : List V) (x : V) :
    freeCost hpow fv x
      = ∑ j ∈ Finset.range (fv.length / 2),
          fv.getD (j * 2) 0 * hpow x (fv.getD (j * 2 + 1) 0) := by
  unfold freeCost
  rw [foldl_range_add, zero_add]

/-! ### C1 … C5: the dependant-value resolver and the four evaluators -/

/-- C1: for the `spec` fitting method, a step with resolved dependant value
`x` sets the cost to `x * fv` for a numeric fitting value `fv`; when the
fitting value is the literal string `"cost"`, the multiplier is the current
running cost `c` instead, so the result is `c * x`. -/
theorem update_spec_cost (component : Component V) (f : Financials V)
    (i : Nat) (x : V) (hx : get_dependant_value component f i = .ok x) :
    (∀ fv : V, pyIndex f.fitting_value i = .ok (.num fv) →
      update_spec component f i = .ok (setCost f (some (x * fv)))) ∧
    (∀ c : V, pyIndex f.fitting_value i = .ok (.str "cost") →
      f.cost = some c →
      update_spec component f i = .ok (setCost f (some (c * x)))) := by
  constructor
  · intro fv hfv
    simp only [update_spec, hx, hfv, asNum]
  · intro c hfv hc
    simp only [update_spec, hx, hfv, getCost, hc, reduceIte]
    rw [mul_comm]

theorem update_spec_cost_witness :
    get_dependant_value comp0 specF 0 = .ok 5 ∧
    pyIndex specF.fitting_value 0 = .ok (.num 3) ∧
    update_spec comp0 specF 0 = .ok (setCost specF (some (5 * 3))) ∧
    update_spec comp0 specFc 0 = .ok (setCost specFc (some (2 * 5))) :=
  ⟨rfl, rfl, (update_spec_cost comp0 specF 0 5 rfl).1 3 rfl,
    (update_spec_cost comp0 specFc 0 5 rfl).2 2 rfl rfl⟩

/-- C2: for the `exp` fitting method with fitting values `[a, b, c]` the
cost becomes `a + b * exp(c * x)`; with only `[b, c]` the constant defaults
to `0`, giving `b * exp(c * x)`. -/
theorem update_exp_cost (mexp : V → V) (component : Component V)
    (f : Financials V) (i : Nat) (x a b c : V)
    (hx : get_dependant_value component f i = .ok x) :
    (pyIndex f.fitting_value i = .ok (.list [.num a, .num b, .num c]) →
      update_exp mexp component f i
        = .ok (setCost f (some (a + b * mexp (c * x))))) ∧
    (pyIndex f.fitting_value i = .ok (.list [.num b, .num c]) →
      update_exp mexp component f i
        = .ok (setCost f (some (b * mexp (c * x))))) := by
  constructor
  · intro hfv
    simp [update_exp, hx, hfv, asNumList, mapAsNum, asNum]
  · intro hfv
    simp [update_exp, hx, hfv, asNumList, mapAsNum, asNum]

theorem update_exp_cost_witness :
    get_dependant_value comp0 expF3 0 = .ok 0 ∧
    update_exp intExp comp0 expF3 0
      = .ok (setCost expF3 (some (1 + 2 * intExp (3 * 0)))) ∧
    update_exp intExp comp0 expF2 0
      = .ok (setCost expF2 (some (2 * intExp (3 * 0)))) ∧
    (1 + 2 * intExp (3 * 0) = 3 ∧ 2 * intExp (3 * 0) = 2) :=
  ⟨rfl, (update_exp_cost intExp comp0 expF3 0 0 1 2 3 rfl).1 rfl,
    (update_exp_cost intExp comp0 expF2 0 0 0 2 3 rfl).2 rfl,
    by decide, by decide⟩

/-- C3: for the `poly` fitting method with coefficient list `l` and
resolved dependant value `x`, the cost becomes `Σ l[i] * x^i` over all
indices of `l` in ascending powers (`0` for the empty list). -/
theorem update_poly_cost (component : Component V) (f : Financials V)
    (i : Nat) (x : V) (l : List V)
    (hx : get_dependant_value component f i = .ok x)
    (hfv : pyIndex f.fitting_value i = .ok (.list (l.map PyVal.num))) :
    update_poly component f i
      = .ok (setCost f
          (some (∑ j ∈ Finset.range l.length, l.getD j 0 * x ^ j))) := by
  simp only [update_poly, hx, hfv, asNumList, mapAsNum_map, polyCost_eq_sum]

theorem update_poly_cost_witness :
    get_dependant_value comp0 polyStepF 0 = .ok 2 ∧
    pyIndex polyStepF.fitting_value 0 = .ok (.list (polyL.map PyVal.num)) ∧
    update_poly comp0 polyStepF 0
      = .ok (setCost polyStepF
          (some (∑ j ∈ Finset.range 3, polyL.getD j 0 * 2 ^ j))) ∧
    (∑ j ∈ Finset.range 3, polyL.getD j 0 * (2 : ℤ) ^ j) = 17 :=
  ⟨rfl, rfl, update_poly_cost comp0 polyStepF 0 2 polyL rfl rfl, by decide⟩

/-- C4: for the `free` fitting method with values `l`: when the length of
`l` is even the cost becomes the sum of `l[j*2] * x ** l[j*2+1]` over the
pairs; when it is odd the evaluation fails with the validation error naming
the component and the count. -/
theorem update_free_cost (hpow : V → V → V) (component : Component V)
    (f : Financials V) (i : Nat) (x : V) (l : List V)
    (hx : get_dependant_value component f i = .ok x)
    (hfv : pyIndex f.fitting_value i = .ok (.list (l.map PyVal.num))) :
    (l.length % 2 = 0 →
      update_free hpow component f i
        = .ok (setCost f
            (some (∑ j ∈ Finset.range (l.length / 2),
              l.getD (j * 2) 0 * hpow x (l.getD (j * 2 + 1) 0))))) ∧
    (l.length % 2 ≠ 0 →
      update_free hpow component f i
        = .error (.validationError component.name l.length)) := by
  constructor
  · intro heven
    simp only [update_free, hx, hfv, List.length_map, heven, ne_eq,
      not_true_eq_false, not_false_eq_true, reduceIte, mapAsNum_map,
      freeCost_eq_sum]
  · intro hodd
    simp only [update_free, hx, hfv, List.length_map, ne_eq]
    rw [if_pos hodd]

theorem update_free_cost_witness :
    get_dependant_value comp0 freeF 0 = .ok 2 ∧
    pyIndex freeF.fitting_value 0 = .ok (.list (freeL.map PyVal.num)) ∧
    update_free intPow comp0 freeF 0
      = .ok (setCost freeF
          (some (∑ j ∈ Finset.range 2,
            freeL.getD (j * 2) 0 * intPow 2 (freeL.getD (j * 2 + 1) 0)))) ∧
    update_free intPow comp0 freeFodd 0
      = .error (.validationError "electrolyzer" 3) ∧
    (∑ j ∈ Finset.range 2,
      freeL.getD (j * 2) 0 * intPow 2 (freeL.getD (j * 2 + 1) 0)) = 24 :=
  ⟨rfl, rfl, (update_free_cost intPow comp0 freeF 0 2 freeL rfl rfl).1 rfl,
    (update_free_cost intPow comp0 freeFodd 0 2 freeLodd rfl rfl).2
      (by decide), by decide⟩

/-- C5: the dependant-value resolver fetches the component attribute named
by `dependant_value[index]` directly, except that for the name `"capex"` it
returns the nested `cost` entry of the `capex` record; a missing attribute
fails with the attribute-not-found error naming the attribute. -/
theorem dependant_value_resolution (component : Component V)
    (f : Financials V) (i : Nat) (name : String)
    (hname : pyIndex f.dependant_value i = .ok (.str name)) :
    (∀ v : V, name ≠ "capex" → component.attrs name = some (.num v) →
      get_dependant_value component f i = .ok v) ∧
    (∀ c : V, name = "capex" →
      component.attrs name = some (.dict (some c)) →
      get_dependant_value component f i = .ok c) ∧
    (component.attrs name = none →
      get_dependant_value component f i
        = .error (.attributeNotFound name)) := by
  refine ⟨?_, ?_, ?_⟩
  · intro v hne hattr
    simp only [get_dependant_value, hname, hattr, if_neg hne]
  · intro c hcapex hattr
    subst hcapex
    simp only [get_dependant_value, hname, hattr, reduceIte]
  · intro hattr
    simp only [get_dependant_value, hname, hattr]

theorem update_financials_eq (hpow : V → V → V) (mexp : V → V)
    (component : Component V) (f0 : Financials V) :
    update_financials hpow mexp component (some f0)
      = match update_steps hpow mexp component
          (List.range (keyLen (normalize f0))) (normalize f0) with
        | .ok f' => .ok (some f')
        | .error e => .error e := rfl

theorem update_steps_nil (hpow : V → V → V) (mexp : V → V)
    (component : Component V) (f : Financials V) :
    update_steps hpow mexp component [] f = .ok f := rfl

theorem update_steps_cons (hpow : V → V → V) (mexp : V → V)
    (component : Component V) (i : Nat) (L : List Nat) (f : Financials V) :
    update_steps hpow mexp component (i :: L) f
      = match update_cost hpow mexp component f i with
        | .error e => .error e
        | .ok f' => update_steps hpow mexp component L f' := rfl

theorem normalize_key_isList (f : Financials V) :
    (normalize f).key.isList = true := by
  unfold normalize
  cases hb : f.key.isList with
  | true => simpa using hb
  | false => simp [hb, PyVal.isList]

theorem normalize_of_isList (f : Financials V) (h : f.key.isList = true) :
    normalize f = f := by
  unfold normalize
  simp [h]

theorem normalize_not_list (f : Financials V) (h : f.key.isList = false) :
    normalize f
      = ⟨.list [f.key], .list [f.fitting_value], .list [f.dependant_value],
          f.cost⟩ := by
  unfold normalize
  simp [h]

theorem dependant_value_resolution_witness :
    pyIndex specF.dependant_value 0 = .ok (.str "power") ∧
    get_dependant_value comp0 specF 0 = .ok 5 ∧
    get_dependant_value comp0 dvCapexF 0 = .ok 7 ∧
    get_dependant_value comp0 dvMissingF 0
      = .error (.attributeNotFound "nope") :=
  ⟨rfl,
    (dependant_value_resolution comp0 specF 0 "power" rfl).1 5 (by decide)
      rfl,
    (dependant_value_resolution comp0 dvCapexF 0 "capex" rfl).2.1 7 rfl rfl,
    (dependant_value_resolution comp0 dvMissingF 0 "nope" rfl).2.2 rfl⟩

/-! ### C6 … C8: dispatcher behaviour -/

/-- C6: an empty/falsy financials dictionary is a no-op: `update_financials`
returns successfully and touches nothing. -/
theorem empty_financials_noop (hpow : V → V → V) (mexp : V → V)
    (component : Component V) :
    update_financials hpow mexp component none = .ok none := rfl

/-- C7: a single-step specification with bare `key`, `fitting_value` and
`dependant_value` entries evaluates exactly like the specification with the
three fields wrapped into one-element lists: normalization is lossless. -/
theorem normalization_lossless (hpow : V → V → V) (mexp : V → V)
    (component : Component V) (kv fvv dvv : PyVal V) (c : Option V)
    (hk : kv.isList = false) :
    update_financials hpow mexp component (some ⟨kv, fvv, dvv, c⟩)
      = update_financials hpow mexp component
          (some ⟨.list [kv], .list [fvv], .list [dvv], c⟩) := by
  rw [update_financials_eq, update_financials_eq,
    normalize_not_list ⟨kv, fvv, dvv, c⟩ hk,
    normalize_of_isList ⟨.list [kv], .list [fvv], .list [dvv], c⟩ rfl]

theorem normalization_lossless_witness :
    bareF.key.isList = false ∧
    update_financials intPow intExp comp0 (some bareF)
      = update_financials intPow intExp comp0 (some specF) :=
  ⟨rfl, normalization_lossless intPow intExp comp0 (.str "spec") (.num 3)
    (.str "power") none rfl⟩

/-- C8: a step whose key is a string other than `fix`, `spec`, `exp`,
`poly`, `free` fails with the invalid-configuration error naming that key;
for a single-step specification (bare or wrapped) the whole evaluation
fails the same way and no updated record — in particular no new cost — is
produced. -/
theorem unknown_key_error (hpow : V → V → V) (mexp : V → V)
    (component : Component V) (s : String) (h1 : s ≠ "fix")
    (h2 : s ≠ "spec") (h3 : s ≠ "exp") (h4 : s ≠ "poly") (h5 : s ≠ "free") :
    (∀ (f : Financials V) (i : Nat), pyIndex f.key i = .ok (.str s) →
      update_cost hpow mexp component f i
        = .error (.invalidConfiguration s)) ∧
    (∀ (fvv dvv : PyVal V) (c : Option V),
      update_financials hpow mexp component (some ⟨.str s, fvv, dvv, c⟩)
        = .error (.invalidConfiguration s)) ∧
    (∀ (fvv dvv : PyVal V) (c : Option V),
      update_financials hpow mexp component
          (some ⟨.list [.str s], fvv, dvv, c⟩)
        = .error (.invalidConfiguration s)) := by
  have hstep : ∀ (f : Financials V) (i : Nat),
      pyIndex f.key i = .ok (.str s) →
      update_cost hpow mexp component f i
        = .error (.invalidConfiguration s) := by
    intro f i hkey
    simp only [update_cost, hkey, if_neg h1, if_neg h2, if_neg h3, if_neg h4,
      if_neg h5]
  refine ⟨hstep, ?_, ?_⟩
  · intro fvv dvv c
    rw [update_financials_eq]
    have h0 := hstep (normalize ⟨.str s, fvv, dvv, c⟩) 0 rfl
    have hrange : List.range (keyLen (normalize
        (⟨.str s, fvv, dvv, c⟩ : Financials V))) = [0] := rfl
    rw [hrange, update_steps_cons, h0]
  · intro fvv dvv c
    rw [update_financials_eq]
    have h0 := hstep (normalize ⟨.list [.str s], fvv, dvv, c⟩) 0 rfl
    have hrange : List.range (keyLen (normalize
        (⟨.list [.str s], fvv, dvv, c⟩ : Financials V))) = [0] := rfl
    rw [hrange, update_steps_cons, h0]

/-! ### Step results only ever write the cost field -/

theorem update_spec_ok {component : Component V} {f : Financials V} {i : Nat}
    {g : Financials V} (h : update_spec component f i = .ok g) :
    ∃ v, g = setCost f (some v) := by
  unfold update_spec at h
  split at h
  · exact Except.noConfusion h
  · split at h
    · exact Except.noConfusion h
    · split at h
      · exact Except.noConfusion h
      · injection h with h
        exact ⟨_, h.symm⟩

theorem update_exp_ok {mexp : V → V} {component : Component V}
    {f : Financials V} {i : Nat} {g : Financials V}
    (h : update_exp mexp component f i = .ok g) :
    ∃ v, g = setCost f (some v) := by
  unfold update_exp at h
  split at h
  · exact Except.noConfusion h
  · split at h
    · exact Except.noConfusion h
    · split at h
      · exact Except.noConfusion h
      · split at h
        · injection h with h
          exact ⟨_, h.symm⟩
        · exact Except.noConfusion h

theorem update_poly_ok {component : Component V} {f : Financials V} {i : Nat}
    {g : Financials V} (h : update_poly component f i = .ok g) :
    ∃ v, g = setCost f (some v) := by
  unfold update_poly at h
  split at h
  · exact Except.noConfusion h
  · split at h
    · exact Except.noConfusion h
    · split at h
      · exact Except.noConfusion h
      · injection h with h
        exact ⟨_, h.symm⟩

theorem update_free_ok {hpow : V → V → V} {component : Component V}
    {f : Financials V} {i : Nat} {g : Financials V}
    (h : update_free hpow component f i = .ok g) :
    ∃ v, g = setCost f (some v) := by
  unfold update_free at h
  split at h
  · exact Except.noConfusion h
  · split at h
    · exact Except.noConfusion h
    · split at h
      · split at h
        · exact Except.noConfusion h
        · split at h
          · exact Except.noConfusion h
          · injection h with h
            exact ⟨_, h.symm⟩
      · exact Except.noConfusion h

theorem update_cost_result {hpow : V → V → V} {mexp : V → V}
    {component : Component V} {f : Financials V} {i : Nat}
    {g : Financials V} (h : update_cost hpow mexp component f i = .ok g) :
    g = setCost f g.cost := by
  unfold update_cost at h
  split at h
  · exact Except.noConfusion h
  · split at h
    · split at h
      · injection h with h
        subst h
        rfl
      · split at h
        · obtain ⟨v, hv⟩ := update_spec_ok h
          subst hv
          rfl
        · split at h
          · obtain ⟨v, hv⟩ := update_exp_ok h
            subst hv
            rfl
          · split at h
            · obtain ⟨v, hv⟩ := update_poly_ok h
              subst hv
              rfl
            · split at h
              · obtain ⟨v, hv⟩ := update_free_ok h
                subst hv
                rfl
              · exact Except.noConfusion h
    · exact Except.noConfusion h

theorem update_steps_fields {hpow : V → V → V} {mexp : V → V}
    {component : Component V} {L : List Nat} {f g : Financials V}
    (h : update_steps hpow mexp component L f = .ok g) :
    g = setCost f g.cost := by
  induction L generalizing f with
  | nil =>
    rw [update_steps_nil] at h
    injection h with h
    subst h
    rfl
  | cons i L ih =>
    rw [update_steps_cons] at h
    split at h
    · exact Except.noConfusion h
    · rename_i f' heq
      have h1 := update_cost_result heq
      exact (ih h).trans (by rw [h1, setCost_setCost])

/-! ### Cost-obliviousness of the evaluators -/

theorem update_spec_setCost (component : Component V) (f : Financials V)
    (i : Nat)
    (hno : ∀ e, pyIndex f.fitting_value i = .ok e → isCostToken e = false)
    (c : Option V) :
    update_spec component (setCost f c) i = update_spec component f i := by
  unfold update_spec
  simp only [get_dependant_value_setCost, fitting_value_setCost,
    setCost_setCost]
  cases hdv : get_dependant_value component f i with
  | error e => rfl
  | ok dv =>
    cases hfv : pyIndex f.fitting_value i with
    | error e => rfl
    | ok entry =>
      cases entry with
      | num v => rfl
      | list l => rfl
      | str s =>
        have hs : ¬ (s = "cost") := by
          have hb := hno (.str s) hfv
          simp only [isCostToken] at hb
          simpa using hb
        simp only [if_neg hs]

/-- Shape of one dispatch step as a function of the running cost: with no
`'cost'` sentinel at this index it is the identity (`fix`), a constant
successful write, or a constant error. -/
theorem update_cost_shape (hpow : V → V → V) (mexp : V → V)
    (component : Component V) (f : Financials V) (i : Nat)
    (hno : ∀ e, pyIndex f.fitting_value i = .ok e → isCostToken e = false) :
    (∀ c, update_cost hpow mexp component (setCost f c) i
        = .ok (setCost f c)) ∨
    (∃ v, ∀ c, update_cost hpow mexp component (setCost f c) i
        = .ok (setCost f (some v))) ∨
    (∃ err, ∀ c, update_cost hpow mexp component (setCost f c) i
        = .error err) := by
  cases hk : pyIndex f.key i with
  | error e =>
    exact Or.inr (Or.inr ⟨e, fun c => by
      simp only [update_cost, key_setCost, hk]⟩)
  | ok kv =>
    cases kv with
    | num v =>
      exact Or.inr (Or.inr ⟨.invalidConfiguration "<non-string key>",
        fun c => by simp only [update_cost, key_setCost, hk]⟩)
    | list l =>
      exact Or.inr (Or.inr ⟨.invalidConfiguration "<non-string key>",
        fun c => by simp only [update_cost, key_setCost, hk]⟩)
    | str s =>
      by_cases hfix : s = "fix"
      · subst hfix
        exact Or.inl (fun c => by
          simp only [update_cost, key_setCost, hk, String.reduceEq, reduceIte])
      · by_cases hspec : s = "spec"
        · subst hspec
          have hred : ∀ c : Option V,
              update_cost hpow mexp component (setCost f c) i
                = update_spec component (setCost f c) i := fun c => by
            simp only [update_cost, key_setCost, hk, String.reduceEq, reduceIte]
          cases hres : update_spec component f i with
          | error e =>
            exact Or.inr (Or.inr ⟨e, fun c => by
              rw [hred c, update_spec_setCost component f i hno c, hres]⟩)
          | ok g =>
            obtain ⟨v, hv⟩ := update_spec_ok hres
            exact Or.inr (Or.inl ⟨v, fun c => by
              rw [hred c, update_spec_setCost component f i hno c, hres,
                hv]⟩)
        · by_cases hexp : s = "exp"
          · subst hexp
            have hred : ∀ c : Option V,
                update_cost hpow mexp component (setCost f c) i
                  = update_exp mexp component (setCost f c) i := fun c => by
              simp only [update_cost, key_setCost, hk, String.reduceEq, reduceIte]
            cases hres : update_exp mexp component f i with
            | error e =>
              exact Or.inr (Or.inr ⟨e, fun c => by
                rw [hred c, update_exp_setCost, hres]⟩)
            | ok g =>
              obtain ⟨v, hv⟩ := update_exp_ok hres
              exact Or.inr (Or.inl ⟨v, fun c => by
                rw [hred c, update_exp_setCost, hres, hv]⟩)
          · by_cases hpoly : s = "poly"
            · subst hpoly
              have hred : ∀ c : Option V,
                  update_cost hpow mexp component (setCost f c) i
                    = update_poly component (setCost f c) i := fun c => by
                simp only [update_cost, key_setCost, hk, String.reduceEq, reduceIte]
              cases hres : update_poly component f i with
              | error e =>
                exact Or.inr (Or.inr ⟨e, fun c => by
                  rw [hred c, update_poly_setCost, hres]⟩)
              | ok g =>
                obtain ⟨v, hv⟩ := update_poly_ok hres
                exact Or.inr (Or.inl ⟨v, fun c => by
                  rw [hred c, update_poly_setCost, hres, hv]⟩)
            · by_cases hfree : s = "free"
              · subst hfree
                have hred : ∀ c : Option V,
                    update_cost hpow mexp component (setCost f c) i
                      = update_free hpow component (setCost f c) i :=
                  fun c => by
                    simp only [update_cost, key_setCost, hk, String.reduceEq, reduceIte]
                cases hres : update_free hpow component f i with
                | error e =>
                  exact Or.inr (Or.inr ⟨e, fun c => by
                    rw [hred c, update_free_setCost, hres]⟩)
                | ok g =>
                  obtain ⟨v, hv⟩ := update_free_ok hres
                  exact Or.inr (Or.inl ⟨v, fun c => by
                    rw [hred c, update_free_setCost, hres, hv]⟩)
              · exact Or.inr (Or.inr ⟨.invalidConfiguration s, fun c => by
                  simp only [update_cost, key_setCost, hk, if_neg hfix,
                    if_neg hspec, if_neg hexp, if_neg hpoly, if_neg hfree]⟩)

/-- Re-running the dispatch loop from the cost it produced reproduces the
same result, provided no step uses the `'cost'` sentinel. -/
theorem update_steps_rerun (hpow : V → V → V) (mexp : V → V)
    (component : Component V) (base : Financials V)
    (hno : ∀ i e, pyIndex base.fitting_value i = .ok e →
      isCostToken e = false) :
    ∀ (L : List Nat) (c : Option V) (g : Financials V),
    update_steps hpow mexp component L (setCost base c) = .ok g →
    update_steps hpow mexp component L (setCost base g.cost) = .ok g := by
  intro L
  induction L with
  | nil =>
    intro c g h
    rw [update_steps_nil] at h
    injection h with h
    rw [← h]
    rfl
  | cons i L ih =>
    intro c g h
    rw [update_steps_cons] at h ⊢
    rcases update_cost_shape hpow mexp component base i (hno i) with
      hid | ⟨v, hv⟩ | ⟨err, herr⟩
    · rw [hid c] at h
      rw [hid g.cost]
      exact ih c g h
    · rw [hv c] at h
      rw [hv g.cost]
      exact h
    · rw [herr c] at h
      exact Except.noConfusion h

theorem noCostTokenB_pyIndex {f : Financials V}
    (hB : noCostTokenB f = true) :
    ∀ (i : Nat) (e : PyVal V), pyIndex f.fitting_value i = .ok e →
      isCostToken e = false := by
  intro i e h
  unfold noCostTokenB at hB
  cases hfv : f.fitting_value with
  | num v =>
    rw [hfv] at h
    exact Except.noConfusion h
  | str s =>
    rw [hfv] at h
    exact Except.noConfusion h
  | list l =>
    rw [hfv] at h hB
    have hB' : l.all (fun x => !(isCostToken x)) = true := hB
    simp only [pyIndex] at h
    cases hg : l.get? i with
    | none =>
      rw [hg] at h
      exact Except.noConfusion h
    | some x =>
      rw [hg] at h
      injection h with h
      subst h
      have hmem := List.get?_mem hg
      have hall := List.all_eq_true.mp hB' _ hmem
      simpa using hall

theorem unknown_key_error_witness :
    ("bogus" ≠ "fix" ∧ "bogus" ≠ "spec" ∧ "bogus" ≠ "exp" ∧
      "bogus" ≠ "poly" ∧ "bogus" ≠ "free") ∧
    update_financials intPow intExp comp0 (some bogusF)
      = .error (.invalidConfiguration "bogus") :=
  ⟨⟨by decide, by decide, by decide, by decide, by decide⟩,
    (unknown_key_error intPow intExp comp0 "bogus" (by decide) (by decide)
      (by decide) (by decide) (by decide)).2.1 (.num 3) (.str "power")
      (some 9)⟩

/-! ### C9, C10: idempotence and in-place field rewriting -/

/-- C9 counterexample: with the `'cost'` sentinel as fitting value,
re-evaluating the unchanged component and specification multiplies the cost
by the dependant value again (`5` then `25`), so evaluation is not
idempotent for every valid specification. -/
theorem evaluate_not_idempotent :
    update_financials intPow intExp comp0 (some idemF) = .ok (some idemF1) ∧
    update_financials intPow intExp comp0 (some idemF1)
      = .ok (some idemF2) ∧
    idemF1.cost ≠ idemF2.cost :=
  ⟨rfl, rfl, by decide⟩

/-- C9 (amended): evaluation is idempotent for every specification none of
whose steps uses the literal `'cost'` fitting value: re-invoking
`update_financials` on the component and the result of a successful first
invocation succeeds and returns that result (in particular the same final
cost) unchanged. -/
theorem evaluate_idempotent_no_cost_token (hpow : V → V → V) (mexp : V → V)
    (component : Component V) (f f1 : Financials V)
    (hno : noCostTokenB (normalize f) = true)
    (h1 : update_financials hpow mexp component (some f) = .ok (some f1)) :
    update_financials hpow mexp component (some f1) = .ok (some f1) := by
  rw [update_financials_eq] at h1
  cases hrun : update_steps hpow mexp component
      (List.range (keyLen (normalize f))) (normalize f) with
  | error e =>
    rw [hrun] at h1
    exact Except.noConfusion h1
  | ok g =>
    rw [hrun] at h1
    simp only [Except.ok.injEq, Option.some.injEq] at h1
    subst h1
    have hfields := update_steps_fields hrun
    have hkeyg : g.key = (normalize f).key := by
      rw [hfields]
      rfl
    have hgl : g.key.isList = true := by
      rw [hkeyg]
      exact normalize_key_isList f
    have hkl : keyLen g = keyLen (normalize f) := by
      unfold keyLen
      rw [hkeyg]
    rw [update_financials_eq, normalize_of_isList g hgl, hkl]
    have hre := update_steps_rerun hpow mexp component (normalize f)
      (noCostTokenB_pyIndex hno) (List.range (keyLen (normalize f)))
      (normalize f).cost g hrun
    rw [← hfields] at hre
    rw [hre]

theorem evaluate_idempotent_no_cost_token_witness :
    noCostTokenB (normalize polyF) = true ∧
    update_financials intPow intExp comp0 (some polyF)
      = .ok (some polyF1) ∧
    update_financials intPow intExp comp0 (some polyF1)
      = .ok (some polyF1) :=
  ⟨rfl, rfl,
    evaluate_idempotent_no_cost_token intPow intExp comp0 polyF polyF1 rfl
      rfl⟩

/-- C10: when the specification's key is not a list, a successful
evaluation leaves the specification with `key`, `fitting_value` and
`dependant_value` rewritten into the one-element lists produced by
normalization — the engine's writes are not limited to the cost field. -/
theorem evaluate_wraps_fields (hpow : V → V → V) (mexp : V → V)
    (component : Component V) (f f' : Financials V)
    (hk : f.key.isList = false)
    (h : update_financials hpow mexp component (some f) = .ok (some f')) :
    f'.key = .list [f.key] ∧
    f'.fitting_value = .list [f.fitting_value] ∧
    f'.dependant_value = .list [f.dependant_value] := by
  rw [update_financials_eq] at h
  cases hrun : update_steps hpow mexp component
      (List.range (keyLen (normalize f))) (normalize f) with
  | error e =>
    rw [hrun] at h
    exact Except.noConfusion h
  | ok g =>
    rw [hrun] at h
    simp only [Except.ok.injEq, Option.some.injEq] at h
    subst h
    have hfields := update_steps_fields hrun
    rw [hfields, normalize_not_list f hk]
    exact ⟨rfl, rfl, rfl⟩

theorem evaluate_wraps_fields_witness :
    polyF.key.isList = false ∧
    update_financials intPow intExp comp0 (some polyF)
      = .ok (some polyF1) ∧
    (polyF1.key = .list [polyF.key] ∧
      polyF1.fitting_value = .list [polyF.fitting_value] ∧
      polyF1.dependant_value = .list [polyF.dependant_value]) :=
  ⟨rfl, rfl, evaluate_wraps_fields intPow intExp comp0 polyF polyF1 rfl rfl⟩

end Smooth
